import Mathlib

/-!
Shallow embedding of the data-integrity core of `src/data/integrity/verification.py`
(Inspector IA): the `MerkleTree` class, the `MockBlockchain` ledger and the
`DataIntegrityManager` orchestration layer, together with proofs of the
specification's testable properties.

Modelling conventions:
* byte strings (UTF-8 payload encodings and SHA-256 digests) are `List Nat`;
* `hashlib.sha256(...).digest()` is an abstract parameter `H : Bytes → Bytes`;
  every theorem is stated for an arbitrary digest function, with
  collision-freeness an explicit hypothesis where a claim needs it;
* hex encoding (`.hex()` / `bytes.fromhex`) is a bijection between digests and
  the hex strings crossing the `verify_proof` boundary, so digests are carried
  and compared directly; a `None` root is `Option.none`;
* `datetime.now()` becomes an explicit `now : Nat` argument;
  `json.dumps(·, sort_keys=True, default=str)` is an abstract fallible
  canonicalizer `canon : α → Except SerializationError Bytes` (a raised
  serialization exception is `.error`, normal return is `.ok`);
* Python `dict`s (insertion-ordered, unique keys) are association lists with an
  insert-or-replace operation; methods that mutate `self` return the new state.
-/

namespace Inspector

/-- Byte strings and SHA-256 digests. -/
abbrev Bytes := List Nat

/-- The `"left"` / `"right"` position tag stored in a Merkle proof element. -/
inductive Side where
  | left
  | right
deriving DecidableEq

/-- One proof entry `{"hash": sibling, "position": side}` produced by
`MerkleTree._generate_proof` and consumed by `MerkleTree.verify_proof`. -/
structure ProofElem where
  hash : Bytes
  position : Side
deriving DecidableEq

/-- State of the `MerkleTree` class: `self.leaves`, `self.tree`, `self.root`. -/
structure MerkleTree where
  leaves : List Bytes
  tree : List (List Bytes)
  root : Option Bytes
deriving DecidableEq

/-- A freshly constructed `MerkleTree()`. -/
def MerkleTree.empty : MerkleTree := ⟨[], [], none⟩

/-- The dictionary returned by `MerkleTree.add_leaf`. -/
structure AddLeafResult where
  leaf_hash : Bytes
  leaf_index : Nat
  proof : List ProofElem
  root : Option Bytes
deriving DecidableEq

section MerkleDefs

variable (H : Bytes → Bytes)

/-- One iteration of the inner pairing loop of `MerkleTree._build_tree`: combine
adjacent nodes, duplicating an odd, unmatched last node. -/
def nextLevel : List Bytes → List Bytes
  | [] => []
  | [l] => [H (l ++ l)]
  | l :: r :: rest => H (l ++ r) :: nextLevel rest

theorem nextLevel_length : ∀ cur : List Bytes,
    (nextLevel H cur).length = (cur.length + 1) / 2
  | [] => by simp [nextLevel]
  | [l] => by simp [nextLevel]
  | l :: r :: rest => by
    simp only [nextLevel, List.length_cons, nextLevel_length rest]
    omega

/-- The level-by-level `while` loop of `MerkleTree._build_tree`: the list of all
levels from the given one up to the single-node top level. -/
def buildLevels (cur : List Bytes) : List (List Bytes) :=
  if h : 1 < cur.length then cur :: buildLevels (nextLevel H cur) else [cur]
termination_by cur.length
decreasing_by simp [nextLevel_length]; omega

/-- `current_level[0]` after the `while` loop of `MerkleTree._build_tree`:
iterate `nextLevel` while more than one node remains, then take the head. -/
def rootHash (cur : List Bytes) : Bytes :=
  if h : 1 < cur.length then rootHash (nextLevel H cur) else cur.headD []
termination_by cur.length
decreasing_by simp [nextLevel_length]; omega

/-- `MerkleTree._build_tree`: recompute `self.tree` and `self.root` from
`self.leaves` (empty leaves give an empty tree and a `None` root). -/
def MerkleTree.build_tree (t : MerkleTree) : MerkleTree :=
  if t.leaves.isEmpty then { t with tree := [], root := none }
  else { t with tree := buildLevels H t.leaves, root := some (rootHash H t.leaves) }

/-- The body of the per-level loop of `MerkleTree._generate_proof`: pick the
sibling of position `i` in level `lvl` (an even position pairs with its
successor if present, otherwise with itself, tagged `right`; an odd position
pairs with its predecessor, tagged `left`). -/
def genStep (lvl : List Bytes) (i : Nat) : ProofElem :=
  if i % 2 = 0 then
    if i + 1 < lvl.length then ⟨lvl.getD (i + 1) [], .right⟩
    else ⟨lvl.getD i [], .right⟩
  else ⟨lvl.getD (i - 1) [], .left⟩

/-- The `for level in range(len(self.tree) - 1)` loop of
`MerkleTree._generate_proof`: one proof entry per level below the top,
halving the index at each step. -/
def genProofAux : List (List Bytes) → Nat → List ProofElem
  | [], _ => []
  | [_], _ => []
  | lvl :: next :: rest, i => genStep lvl i :: genProofAux (next :: rest) (i / 2)

/-- `MerkleTree._generate_proof`: empty for an out-of-range index, otherwise the
sibling path read off the stored levels. -/
def MerkleTree.generate_proof (t : MerkleTree) (leaf_index : Nat) : List ProofElem :=
  if t.leaves.length ≤ leaf_index then [] else genProofAux t.tree leaf_index

/-- The body of the proof-application loop of `MerkleTree.verify_proof`:
`side=left` hashes `sibling ++ current`, `side=right` hashes `current ++ sibling`. -/
def combine (cur : Bytes) (pe : ProofElem) : Bytes :=
  match pe.position with
  | .left => H (pe.hash ++ cur)
  | .right => H (cur ++ pe.hash)

/-- `MerkleTree.verify_proof`: hash the leaf data, fold the proof entries in
order, and compare the final digest with the expected root. It reads no tree
state (`self` is unused in the source body). -/
def MerkleTree.verify_proof (_t : MerkleTree) (leaf_data : Bytes)
    (proof : List ProofElem) (root : Option Bytes) : Bool :=
  some (proof.foldl (combine H) (H leaf_data)) == root

/-- `MerkleTree.add_leaf`: append the hash of `data` to `self.leaves`, rebuild
the tree, and return the new state together with the result dictionary holding
the proof for the just-added leaf and the new root. -/
def MerkleTree.add_leaf (t : MerkleTree) (data : Bytes) : MerkleTree × AddLeafResult :=
  let leaf_hash := H data
  let t₁ := MerkleTree.build_tree H { t with leaves := t.leaves ++ [leaf_hash] }
  let proof := t₁.generate_proof (t₁.leaves.length - 1)
  (t₁, { leaf_hash := leaf_hash, leaf_index := t₁.leaves.length - 1,
         proof := proof, root := t₁.root })

/-- Successive `add_leaf` calls, collecting each call's returned dictionary. -/
def addLeaves : MerkleTree → List Bytes → MerkleTree × List AddLeafResult
  | t, [] => (t, [])
  | t, d :: ds =>
    let p₁ := MerkleTree.add_leaf H t d
    let p₂ := addLeaves p₁.1 ds
    (p₂.1, p₁.2 :: p₂.2)

end MerkleDefs

section MerkleLemmas

variable (H : Bytes → Bytes)

theorem nextLevel_getD_lt : ∀ (cur : List Bytes) (j : Nat), 2 * j + 1 < cur.length →
    (nextLevel H cur).getD j [] = H (cur.getD (2 * j) [] ++ cur.getD (2 * j + 1) [])
  | [], j, h => by simp at h
  | [l], j, h => by simp at h
  | l :: r :: rest, 0, h => by simp [nextLevel]
  | l :: r :: rest, j + 1, h => by
    have h' : 2 * j + 1 < rest.length := by
      simp only [List.length_cons] at h; omega
    have e : 2 * (j + 1) = 2 * j + 1 + 1 := by ring
    simp only [nextLevel, e, List.getD_cons_succ]
    exact nextLevel_getD_lt rest j h'

theorem nextLevel_getD_last : ∀ (cur : List Bytes) (j : Nat), 2 * j + 1 = cur.length →
    (nextLevel H cur).getD j [] = H (cur.getD (2 * j) [] ++ cur.getD (2 * j) [])
  | [], j, h => by simp at h
  | [l], j, h => by
    have hj : j = 0 := by simp at h; omega
    subst hj; simp [nextLevel]
  | l :: r :: rest, 0, h => by simp at h
  | l :: r :: rest, j + 1, h => by
    have h' : 2 * j + 1 = rest.length := by
      simp only [List.length_cons] at h; omega
    have e : 2 * (j + 1) = 2 * j + 1 + 1 := by ring
    simp only [nextLevel, e, List.getD_cons_succ]
    exact nextLevel_getD_last rest j h'

/-- Applying the proof entry generated at position `i` of a level to the node at
position `i` yields exactly the parent node at position `i / 2` of the next
level: the build pairing and the proof recombination use the same order. -/
theorem combine_genStep (cur : List Bytes) (i : Nat) (hi : i < cur.length) :
    combine H (cur.getD i []) (genStep cur i) = (nextLevel H cur).getD (i / 2) [] := by
  by_cases he : i % 2 = 0
  · by_cases h2 : i + 1 < cur.length
    · have e0 : 2 * (i / 2) = i := by omega
      rw [nextLevel_getD_lt H cur (i / 2) (by omega)]
      simp [genStep, combine, he, h2, e0]
    · have hlast : 2 * (i / 2) + 1 = cur.length := by omega
      have e0 : 2 * (i / 2) = i := by omega
      rw [nextLevel_getD_last H cur (i / 2) hlast]
      simp [genStep, combine, he, h2, e0]
  · have e0 : 2 * (i / 2) = i - 1 := by omega
    have e1 : 2 * (i / 2) + 1 = i := by omega
    have e2 : i - 1 + 1 = i := by omega
    rw [nextLevel_getD_lt H cur (i / 2) (by omega)]
    simp [genStep, combine, he, e0, e1, e2]

theorem buildLevels_ne_nil (cur : List Bytes) : buildLevels H cur ≠ [] := by
  rw [buildLevels]
  split <;> simp

/-- Folding the proof generated from the stored levels, starting from the value
at the proved index of the bottom level, reaches the root. -/
theorem foldl_genProof_eq_rootHash (n : Nat) : ∀ (cur : List Bytes), cur.length ≤ n →
    ∀ i, i < cur.length →
    (genProofAux (buildLevels H cur) i).foldl (combine H) (cur.getD i []) =
      rootHash H cur := by
  induction n with
  | zero => intro cur hle i hi; omega
  | succ n ih =>
    intro cur hle i hi
    rw [buildLevels, rootHash]
    by_cases h1 : 1 < cur.length
    · rw [dif_pos h1, dif_pos h1]
      cases hb : buildLevels H (nextLevel H cur) with
      | nil => exact absurd hb (buildLevels_ne_nil H (nextLevel H cur))
      | cons b bs =>
        simp only [genProofAux, List.foldl_cons]
        rw [combine_genStep H cur i hi, ← hb]
        exact ih (nextLevel H cur) (by rw [nextLevel_length]; omega) (i / 2)
          (by rw [nextLevel_length]; omega)
    · rw [dif_neg h1, dif_neg h1]
      have hi0 : i = 0 := by omega
      subst hi0
      cases cur with
      | nil => simp at hi
      | cons a as => simp [genProofAux]

/-- The proof returned by `add_leaf` folds from the new leaf's hash to the root
of the rebuilt tree. -/
theorem add_leaf_foldl (t : MerkleTree) (d : Bytes) :
    ((t.add_leaf H d).2.proof).foldl (combine H) (H d) =
      rootHash H (t.leaves ++ [H d]) := by
  have hne : (t.leaves ++ [H d]).isEmpty = false := by simp
  have hlen : (t.leaves ++ [H d]).length = t.leaves.length + 1 := by simp
  simp only [MerkleTree.add_leaf, MerkleTree.build_tree, hne, Bool.false_eq_true,
    if_false, MerkleTree.generate_proof]
  rw [if_neg (by omega)]
  have := foldl_genProof_eq_rootHash H (t.leaves ++ [H d]).length
    (t.leaves ++ [H d]) le_rfl t.leaves.length (by simp)
  rw [hlen]
  simpa using this

/-- The root reported by `add_leaf` is the root of the rebuilt tree. -/
theorem add_leaf_root (t : MerkleTree) (d : Bytes) :
    (t.add_leaf H d).2.root = some (rootHash H (t.leaves ++ [H d])) := by
  have hne : (t.leaves ++ [H d]).isEmpty = false := by simp
  simp [MerkleTree.add_leaf, MerkleTree.build_tree, hne]

theorem addLeaves_round_trip : ∀ (ds : List Bytes) (t t' : MerkleTree) (k : Nat),
    k < ds.length →
    t'.verify_proof H (ds.getD k [])
      (((addLeaves H t ds).2.getD k ⟨[], 0, [], none⟩).proof)
      (((addLeaves H t ds).2.getD k ⟨[], 0, [], none⟩).root) = true
  | [], _, _, k, hk => by simp at hk
  | d :: ds, t, t', 0, hk => by
    simp only [addLeaves, List.getD_cons_zero]
    rw [MerkleTree.verify_proof, add_leaf_foldl H t d, add_leaf_root H t d]
    simp
  | d :: ds, t, t', k + 1, hk => by
    simp only [addLeaves, List.getD_cons_succ]
    exact addLeaves_round_trip ds (MerkleTree.add_leaf H t d).1 t' k
      (by simp at hk; omega)

end MerkleLemmas

/-- Claim C1: every proof/root pair captured by `add_leaf` at append time keeps
verifying with `verify_proof` afterwards — for any sequence of appended leaf
byte-strings and any index `k`, the `k`-th captured proof and root verify the
`k`-th leaf data against the final tree's `verify_proof` (which ignores live
tree state), including leaves appended before later appends. -/
theorem merkle_round_trip (H : Bytes → Bytes) (ds : List Bytes) (k : Nat)
    (hk : k < ds.length) :
    (addLeaves H MerkleTree.empty ds).1.verify_proof H (ds.getD k [])
      (((addLeaves H MerkleTree.empty ds).2.getD k ⟨[], 0, [], none⟩).proof)
      (((addLeaves H MerkleTree.empty ds).2.getD k ⟨[], 0, [], none⟩).root) = true :=
  addLeaves_round_trip H ds MerkleTree.empty (addLeaves H MerkleTree.empty ds).1 k hk

/-- Witness for C1 at a concrete input: three appended leaves, checking the
proof captured for the first leaf (appended before two later appends). -/
theorem merkle_round_trip_witness :
    0 < ([[1], [2], [3]] : List Bytes).length ∧
    (addLeaves (fun b => 0 :: b) MerkleTree.empty [[1], [2], [3]]).1.verify_proof
      (fun b => 0 :: b) (([[1], [2], [3]] : List Bytes).getD 0 [])
      (((addLeaves (fun b => 0 :: b) MerkleTree.empty [[1], [2], [3]]).2.getD 0
          ⟨[], 0, [], none⟩).proof)
      (((addLeaves (fun b => 0 :: b) MerkleTree.empty [[1], [2], [3]]).2.getD 0
          ⟨[], 0, [], none⟩).root) = true :=
  ⟨by decide, merkle_round_trip (fun b => 0 :: b) [[1], [2], [3]] 0 (by decide)⟩

/-- Transaction metadata dictionary (opaque to this core). -/
abbrev Metadata := List (String × String)

/-- The `BlockchainTransaction` dataclass. -/
structure BlockchainTransaction where
  tx_id : String
  timestamp : Nat
  data_hash : Bytes
  merkle_root : Option Bytes
  merkle_proof : List ProofElem
  source_url : String
  metadata : Metadata
deriving DecidableEq

/-- State of `MockBlockchain`: the insertion-ordered transaction dictionary
(keyed by each record's `tx_id`) and the monotonic id counter. -/
structure MockBlockchain where
  transactions : List BlockchainTransaction
  transaction_counter : Nat
deriving DecidableEq

/-- A freshly constructed `MockBlockchain()`. -/
def MockBlockchain.empty : MockBlockchain := ⟨[], 0⟩

/-- Python dict assignment `self.transactions[tx_id] = transaction`: replace an
entry with the same key in place, otherwise append at the end. -/
def dictInsertTx (tx : BlockchainTransaction) :
    List BlockchainTransaction → List BlockchainTransaction
  | [] => [tx]
  | t :: ts => if t.tx_id = tx.tx_id then tx :: ts else t :: dictInsertTx tx ts

/-- The `transaction_data` dictionary passed to `record_transaction`. -/
structure TxData where
  source : String
  data_hash : Bytes
  merkle_root : Option Bytes
  merkle_proof : List ProofElem
  metadata : Metadata
deriving DecidableEq

/-- `MockBlockchain.record_transaction`: bump the counter, mint the id from it
(`mintTxId` embeds the SHA-256-derived `0x…` id minting, which depends only on
the counter), store the immutable transaction, return the id. -/
def MockBlockchain.record_transaction (mintTxId : Nat → String)
    (b : MockBlockchain) (now : Nat) (td : TxData) : MockBlockchain × String :=
  let counter := b.transaction_counter + 1
  let tx_id := mintTxId counter
  let tx : BlockchainTransaction :=
    { tx_id := tx_id, timestamp := now, data_hash := td.data_hash,
      merkle_root := td.merkle_root, merkle_proof := td.merkle_proof,
      source_url := td.source, metadata := td.metadata }
  ({ transactions := dictInsertTx tx b.transactions, transaction_counter := counter },
   tx_id)

/-- `MockBlockchain.get_transaction`: dictionary lookup by transaction id. -/
def MockBlockchain.get_transaction (b : MockBlockchain) (tx_id : String) :
    Option BlockchainTransaction :=
  b.transactions.find? (fun t => t.tx_id == tx_id)

/-- Boolean list-prefix test used to embed Python's substring operator. -/
def charsStartWith : List Char → List Char → Bool
  | [], _ => true
  | _ :: _, [] => false
  | a :: as, b :: bs => a == b && charsStartWith as bs

/-- Does `n` occur as a contiguous run inside `h`? -/
def charsIn (n : List Char) : List Char → Bool
  | [] => charsStartWith n []
  | c :: cs => charsStartWith n (c :: cs) || charsIn n cs

/-- Python's substring test `needle in hay`. -/
def strIn (needle hay : String) : Bool := charsIn needle.toList hay.toList

/-- One insertion step of a stable descending sort by timestamp. -/
def insertByTsDesc (x : BlockchainTransaction) :
    List BlockchainTransaction → List BlockchainTransaction
  | [] => [x]
  | y :: ys =>
    if y.timestamp ≤ x.timestamp then x :: y :: ys else y :: insertByTsDesc x ys

/-- Python `transactions.sort(key=lambda t: t.timestamp, reverse=True)`:
a stable sort placing the most recent timestamps first. -/
def sortByTsDesc (l : List BlockchainTransaction) : List BlockchainTransaction :=
  l.foldr insertByTsDesc []

/-- `MockBlockchain.list_transactions`: optionally filter by substring of
`source_url` (skipped for `None` and for the falsy empty string), sort by
timestamp descending, return the first `limit` records. -/
def MockBlockchain.list_transactions (b : MockBlockchain) (limit : Nat)
    (source_filter : Option String) : List BlockchainTransaction :=
  let transactions :=
    match source_filter with
    | some f =>
      if f.isEmpty then b.transactions
      else b.transactions.filter (fun t => strIn f t.source_url)
    | none => b.transactions
  (sortByTsDesc transactions).take limit

theorem mem_insertByTsDesc {x a : BlockchainTransaction} :
    ∀ {l : List BlockchainTransaction}, x ∈ insertByTsDesc a l ↔ x = a ∨ x ∈ l
  | [] => by simp [insertByTsDesc]
  | y :: ys => by
    simp only [insertByTsDesc]
    split
    · exact List.mem_cons
    · rw [List.mem_cons, mem_insertByTsDesc (l := ys), List.mem_cons]
      tauto

theorem pairwise_insertByTsDesc (a : BlockchainTransaction) :
    ∀ l : List BlockchainTransaction,
    l.Pairwise (fun u v => v.timestamp ≤ u.timestamp) →
    (insertByTsDesc a l).Pairwise (fun u v => v.timestamp ≤ u.timestamp)
  | [], _ => by simp [insertByTsDesc]
  | y :: ys, h => by
    rw [List.pairwise_cons] at h
    obtain ⟨hy, hys⟩ := h
    by_cases hc : y.timestamp ≤ a.timestamp
    · simp only [insertByTsDesc, if_pos hc]
      refine List.Pairwise.cons ?_ (List.Pairwise.cons hy hys)
      intro z hz
      rcases List.mem_cons.mp hz with rfl | hz'
      · exact hc
      · exact le_trans (hy z hz') hc
    · simp only [insertByTsDesc, if_neg hc]
      refine List.Pairwise.cons ?_ (pairwise_insertByTsDesc a ys hys)
      intro z hz
      rcases mem_insertByTsDesc.mp hz with rfl | hz'
      · omega
      · exact hy z hz'

theorem pairwise_sortByTsDesc :
    ∀ l : List BlockchainTransaction,
    (sortByTsDesc l).Pairwise (fun u v => v.timestamp ≤ u.timestamp)
  | [] => by simp [sortByTsDesc]
  | y :: ys => pairwise_insertByTsDesc y (sortByTsDesc ys) (pairwise_sortByTsDesc ys)

theorem mem_sortByTsDesc {x : BlockchainTransaction} :
    ∀ {l : List BlockchainTransaction}, x ∈ sortByTsDesc l ↔ x ∈ l
  | [] => by simp [sortByTsDesc]
  | y :: ys => by
    rw [show sortByTsDesc (y :: ys) = insertByTsDesc y (sortByTsDesc ys) from rfl,
      mem_insertByTsDesc, mem_sortByTsDesc (l := ys), List.mem_cons]

/-- Demo id minting for concrete ledger instances. -/
def demoMint (n : Nat) : String := "tx" ++ toString n

/-- Demo transaction payload with a distinguishing byte. -/
def demoTd (k : Nat) : TxData := ⟨"https://source", [k], none, [], []⟩

/-- A ledger holding three transactions recorded at timestamps 1 < 2 < 3. -/
def demoChain : MockBlockchain :=
  (((MockBlockchain.empty.record_transaction demoMint 1 (demoTd 1)).1.record_transaction
      demoMint 2 (demoTd 2)).1.record_transaction demoMint 3 (demoTd 3)).1

/-- Claim C8: `list_transactions` returns at most `limit` records, restricted
to those whose `source_url` contains the filter as a substring when a nonempty
filter is given, ordered by timestamp descending; and after recording
transactions at timestamps 1 < 2 < 3, `list_transactions 2` returns exactly the
records made at timestamps 3 and 2, in that order. -/
theorem list_transactions_spec :
    (∀ (b : MockBlockchain) (limit : Nat) (sf : Option String),
      (b.list_transactions limit sf).length ≤ limit) ∧
    (∀ (b : MockBlockchain) (limit : Nat) (f : String) (t : BlockchainTransaction),
      f.isEmpty = false → t ∈ b.list_transactions limit (some f) →
      strIn f t.source_url = true) ∧
    (∀ (b : MockBlockchain) (limit : Nat) (sf : Option String),
      (b.list_transactions limit sf).Pairwise
        (fun u v => v.timestamp ≤ u.timestamp)) ∧
    demoChain.list_transactions 2 none =
      [⟨demoMint 3, 3, [3], none, [], "https://source", []⟩,
       ⟨demoMint 2, 2, [2], none, [], "https://source", []⟩] := by
  refine ⟨?_, ?_, ?_, ?_⟩
  · intro b limit sf
    cases sf with
    | none => exact List.length_take_le ..
    | some f =>
      by_cases hf : f.isEmpty <;>
        simp [MockBlockchain.list_transactions, hf, List.length_take_le]
  · intro b limit f t hf ht
    simp only [MockBlockchain.list_transactions, hf, Bool.false_eq_true, if_false] at ht
    have h1 : t ∈ sortByTsDesc (b.transactions.filter (fun t => strIn f t.source_url)) :=
      List.mem_of_mem_take ht
    rw [mem_sortByTsDesc] at h1
    exact (List.mem_filter.mp h1).2
  · intro b limit sf
    exact List.Pairwise.sublist (List.take_sublist ..) (pairwise_sortByTsDesc _)
  · decide

/-- Witness for the filtering part of C8 at a concrete input. -/
theorem list_transactions_spec_witness :
    ("ource".isEmpty = false ∧
      (⟨demoMint 3, 3, [3], none, [], "https://source", []⟩ : BlockchainTransaction) ∈
        demoChain.list_transactions 5 (some "ource")) ∧
    strIn "ource"
      (BlockchainTransaction.source_url
        ⟨demoMint 3, 3, [3], none, [], "https://source", []⟩) = true :=
  ⟨⟨by decide, by decide⟩,
    list_transactions_spec.2.1 demoChain 5 "ource"
      ⟨demoMint 3, 3, [3], none, [], "https://source", []⟩ (by decide) (by decide)⟩

/-- Claim C6: a tree built by appending exactly three leaves `[a, b, c]` has
root `Hash(Hash(Hash(a)+Hash(b)) + Hash(Hash(c)+Hash(c)))` — the odd,
unmatched last node at each level is paired with itself. -/
theorem three_leaf_root (H : Bytes → Bytes) (a b c : Bytes) :
    ((addLeaves H MerkleTree.empty [a, b, c]).1).root =
      some (H (H (H a ++ H b) ++ H (H c ++ H c))) := by
  simp [addLeaves, MerkleTree.add_leaf, MerkleTree.build_tree, MerkleTree.empty,
    rootHash, nextLevel]

/-- The exception raised when `json.dumps` cannot serialize a payload
(e.g. a circular reference), propagated out of the registration call. -/
structure SerializationError where
  msg : String
deriving DecidableEq

/-- The manager-local snapshot record stored in `self.snapshots`. -/
structure Snapshot where
  data_hash : Bytes
  tx_hash : String
  timestamp : Nat
  source_url : String
  merkle_result : AddLeafResult
deriving DecidableEq

/-- State of `DataIntegrityManager`: the ledger, the growing Merkle tree, and
the insertion-ordered snapshot dictionary. -/
structure DataIntegrityManager where
  blockchain : MockBlockchain
  merkle_tree : MerkleTree
  snapshots : List (String × Snapshot)
deriving DecidableEq

/-- A freshly constructed `DataIntegrityManager()` (with a fresh mock chain). -/
def DataIntegrityManager.init : DataIntegrityManager :=
  ⟨MockBlockchain.empty, MerkleTree.empty, []⟩

/-- Python dict assignment `self.snapshots[snapshot_id] = {...}`. -/
def dictInsertSnap (e : String × Snapshot) :
    List (String × Snapshot) → List (String × Snapshot)
  | [] => [e]
  | p :: ps => if p.1 = e.1 then e :: ps else p :: dictInsertSnap e ps

/-- The dictionary returned by `register_data_snapshot`. -/
structure RegistrationResult where
  snapshot_id : String
  data_hash : Bytes
  tx_hash : String
  merkle_root : Option Bytes
  timestamp : Nat
  verification_url : String
deriving DecidableEq

/-- The dictionary returned by `verify_data_integrity`: either the short
not-found shape (`verified=False` plus a reason) or the full result shape. -/
inductive VerificationResult where
  | notFound (tx_hash : String)
  | result (hashes_match merkle_verified : Bool) (original_hash current_hash : Bytes)
      (source_url : String) (timestamp : Nat) (tx_hash : String)
deriving DecidableEq

/-- The `"verified"` entry of the returned dictionary: `False` in the not-found
shape, `hashes_match and merkle_verified` in the full shape. -/
def VerificationResult.verified : VerificationResult → Bool
  | .notFound _ => false
  | .result hm mv _ _ _ _ _ => hm && mv

/-- The `"reason"` entry: present only in the not-found shape. -/
def VerificationResult.reason : VerificationResult → Option String
  | .notFound _ => some "Transaction not found in blockchain"
  | .result .. => none

section ManagerDefs

variable (H : Bytes → Bytes) (mintTxId : Nat → String)
variable {α : Type} (canon : α → Except SerializationError Bytes) (emptyPayload : α)

/-- `DataIntegrityManager.register_data_snapshot`: canonicalize (a serialization
failure aborts the call before any state changes), hash, add a Merkle leaf,
record the transaction, store the snapshot under `source_url:timestamp`, and
return the summary dictionary. The source reads the clock twice (once here for
the snapshot timestamp and once inside `record_transaction`); both reads are
modelled by the single `now` argument. -/
def DataIntegrityManager.register_data_snapshot (m : DataIntegrityManager)
    (now : Nat) (source_url : String) (data : α) (metadata : Metadata) :
    DataIntegrityManager × Except SerializationError RegistrationResult :=
  match canon data with
  | .error e => (m, .error e)
  | .ok data_json =>
    let data_hash := H data_json
    let p := m.merkle_tree.add_leaf H data_json
    let q := m.blockchain.record_transaction mintTxId now
      { source := source_url, data_hash := data_hash, merkle_root := p.2.root,
        merkle_proof := p.2.proof, metadata := metadata }
    let snapshot_id := source_url ++ ":" ++ toString now
    let snap : Snapshot :=
      { data_hash := data_hash, tx_hash := q.2, timestamp := now,
        source_url := source_url, merkle_result := p.2 }
    ({ blockchain := q.1, merkle_tree := p.1,
       snapshots := dictInsertSnap (snapshot_id, snap) m.snapshots },
     .ok { snapshot_id := snapshot_id, data_hash := data_hash, tx_hash := q.2,
           merkle_root := p.2.root, timestamp := now,
           verification_url := "/verify/" ++ q.2 })

/-- `DataIntegrityManager.verify_data_integrity`: look up the transaction
(returning the structured not-found result when absent), re-canonicalize the
payload, compare hashes, and re-check the stored Merkle proof against the
stored root. The method performs no state writes, so the returned state is the
input state. -/
def DataIntegrityManager.verify_data_integrity (m : DataIntegrityManager)
    (data : α) (tx_hash : String) :
    DataIntegrityManager × Except SerializationError VerificationResult :=
  match m.blockchain.get_transaction tx_hash with
  | none => (m, .ok (.notFound tx_hash))
  | some tx =>
    match canon data with
    | .error e => (m, .error e)
    | .ok data_json =>
      let current_hash := H data_json
      let original_hash := tx.data_hash
      let hashes_match := current_hash == original_hash
      let merkle_verified :=
        m.merkle_tree.verify_proof H data_json tx.merkle_proof tx.merkle_root
      (m, .ok (.result hashes_match merkle_verified original_hash current_hash
        tx.source_url tx.timestamp tx_hash))

/-- An entry of the report's `verification_results` list: the short not-found
shape or the full checked shape with its status string. -/
inductive ReportEntry where
  | notFound (snapshot_id : String)
  | checked (snapshot_id status source_url : String) (timestamp : Nat)
      (tx_hash : String) (details : VerificationResult)
deriving DecidableEq

/-- The `snapshot_id` entry present in both report-entry shapes. -/
def ReportEntry.snapshot_id : ReportEntry → String
  | .notFound s => s
  | .checked s _ _ _ _ _ => s

/-- The report dictionary built by `generate_integrity_report` (summary fields
inlined). -/
structure IntegrityReport where
  report_timestamp : Nat
  snapshots_checked : Nat
  verification_results : List ReportEntry
  verified : Nat
  failed : Nat
  not_found : Nat
  integrity_score : ℚ
deriving DecidableEq

/-- The per-snapshot loop of `generate_integrity_report`: look up each id in the
snapshot dictionary, re-verify found ones against the empty payload `{}` (the
source passes a literal `{}` — it would load actual data), and tally
verified/failed/not-found while collecting result entries in input order. -/
def reportLoop : DataIntegrityManager → List String →
    DataIntegrityManager × Except SerializationError (List ReportEntry × Nat × Nat × Nat)
  | m, [] => (m, .ok ([], 0, 0, 0))
  | m, sid :: rest =>
    match m.snapshots.find? (fun p => p.1 == sid) with
    | none =>
      match reportLoop m rest with
      | (m', .error e) => (m', .error e)
      | (m', .ok (es, v, f, nf)) => (m', .ok (.notFound sid :: es, v, f, nf + 1))
    | some p =>
      match m.verify_data_integrity H canon emptyPayload p.2.tx_hash with
      | (m₁, .error e) => (m₁, .error e)
      | (m₁, .ok ver) =>
        match reportLoop m₁ rest with
        | (m₂, .error e) => (m₂, .error e)
        | (m₂, .ok (es, v, f, nf)) =>
          (m₂, .ok (.checked sid (if ver.verified then "verified" else "failed")
              p.2.source_url p.2.timestamp p.2.tx_hash ver :: es,
            if ver.verified then v + 1 else v,
            if ver.verified then f else f + 1, nf))

/-- `DataIntegrityManager.generate_integrity_report`: run the per-snapshot loop
and assemble the report, with `integrity_score = verified / (verified + failed)
* 100` when that denominator is positive and `0.0` otherwise. -/
def DataIntegrityManager.generate_integrity_report (m : DataIntegrityManager)
    (now : Nat) (snapshot_ids : List String) :
    DataIntegrityManager × Except SerializationError IntegrityReport :=
  match reportLoop H canon emptyPayload m snapshot_ids with
  | (m', .error e) => (m', .error e)
  | (m', .ok (es, v, f, nf)) =>
    let total := v + f
    (m',
     .ok { report_timestamp := now, snapshots_checked := snapshot_ids.length,
           verification_results := es, verified := v, failed := f, not_found := nf,
           integrity_score := if 0 < total then ((v : ℚ) / (total : ℚ)) * 100 else 0 })

end ManagerDefs

section ManagerLemmas

variable (H : Bytes → Bytes) (mintTxId : Nat → String)
variable {α : Type} (canon : α → Except SerializationError Bytes) (emptyPayload : α)

/-- `verify_data_integrity` leaves the manager state untouched. -/
theorem verify_data_integrity_fst (m : DataIntegrityManager) (data : α)
    (tx_hash : String) :
    (m.verify_data_integrity H canon data tx_hash).1 = m := by
  unfold DataIntegrityManager.verify_data_integrity
  cases m.blockchain.get_transaction tx_hash with
  | none => rfl
  | some tx => cases canon data <;> rfl

/-- When the payload canonicalizes, `verify_data_integrity` never errors. -/
theorem verify_data_integrity_ok (m : DataIntegrityManager) (data : α)
    (tx_hash : String) (b : Bytes) (hc : canon data = .ok b) :
    ∃ v, (m.verify_data_integrity H canon data tx_hash).2 = .ok v := by
  unfold DataIntegrityManager.verify_data_integrity
  cases m.blockchain.get_transaction tx_hash with
  | none => exact ⟨_, rfl⟩
  | some tx => rw [hc]; exact ⟨_, rfl⟩

end ManagerLemmas

/-- Claim C4: a payload that cannot be canonically serialized makes
`register_data_snapshot` fail with the `SerializationError` surfaced to the
caller (not swallowed), and aborts the registration: the manager state is
returned unchanged. -/
theorem register_surfaces_serialization_error (H : Bytes → Bytes)
    (mintTxId : Nat → String) {α : Type}
    (canon : α → Except SerializationError Bytes) (m : DataIntegrityManager)
    (now : Nat) (url : String) (data : α) (meta : Metadata)
    (e : SerializationError) (h : canon data = .error e) :
    m.register_data_snapshot H mintTxId canon now url data meta = (m, .error e) := by
  simp [DataIntegrityManager.register_data_snapshot, h]

/-- Witness for C4 at a concrete input: a canonicalizer that rejects its
payload (as `json.dumps` does on a circular reference). -/
theorem register_surfaces_serialization_error_witness :
    (fun _ : Unit => (.error ⟨"Circular reference detected"⟩ :
        Except SerializationError Bytes)) () =
      .error ⟨"Circular reference detected"⟩ ∧
    DataIntegrityManager.init.register_data_snapshot (fun b => 0 :: b) demoMint
        (fun _ : Unit => .error ⟨"Circular reference detected"⟩) 0 "u" () [] =
      (DataIntegrityManager.init, .error ⟨"Circular reference detected"⟩) :=
  ⟨rfl, register_surfaces_serialization_error (fun b => 0 :: b) demoMint
    (fun _ : Unit => .error ⟨"Circular reference detected"⟩)
    DataIntegrityManager.init 0 "u" () [] ⟨"Circular reference detected"⟩ rfl⟩

/-- Claim C7: for every payload and any transaction id absent from the ledger,
`verify_data_integrity` returns the structured not-found result — `verified =
false` with the not-found reason — and no exception: the returned value is
`.ok`, and the payload is never even serialized. -/
theorem verify_unknown_transaction (H : Bytes → Bytes) {α : Type}
    (canon : α → Except SerializationError Bytes) (m : DataIntegrityManager)
    (data : α) (tx_hash : String)
    (h : m.blockchain.get_transaction tx_hash = none) :
    (m.verify_data_integrity H canon data tx_hash) =
      (m, .ok (.notFound tx_hash)) ∧
    (VerificationResult.notFound tx_hash).verified = false ∧
    (VerificationResult.notFound tx_hash).reason =
      some "Transaction not found in blockchain" := by
  refine ⟨?_, rfl, rfl⟩
  unfold DataIntegrityManager.verify_data_integrity
  rw [h]

/-- Witness for C7 at a concrete input: a fresh manager holds no transactions. -/
theorem verify_unknown_transaction_witness :
    DataIntegrityManager.init.blockchain.get_transaction "0xdead" = none ∧
    (DataIntegrityManager.init.verify_data_integrity (fun b => 0 :: b)
        (fun p : Bytes => .ok p) [7] "0xdead") =
      (DataIntegrityManager.init, .ok (.notFound "0xdead")) :=
  ⟨rfl, (verify_unknown_transaction (fun b => 0 :: b) (fun p : Bytes => .ok p)
    DataIntegrityManager.init [7] "0xdead" rfl).1⟩

/-- Claim C9: verification is read-only — `verify_data_integrity` returns the
manager state (tree, ledger and snapshot map) exactly as given, and
`verify_proof` reads no tree state: its result is the same for any two trees,
depending only on its arguments. -/
theorem verification_is_read_only (H : Bytes → Bytes) {α : Type}
    (canon : α → Except SerializationError Bytes) :
    (∀ (m : DataIntegrityManager) (data : α) (tx_hash : String),
      (m.verify_data_integrity H canon data tx_hash).1 = m) ∧
    (∀ (t₁ t₂ : MerkleTree) (leaf_data : Bytes) (proof : List ProofElem)
        (root : Option Bytes),
      t₁.verify_proof H leaf_data proof root = t₂.verify_proof H leaf_data proof root) :=
  ⟨fun m data tx_hash => verify_data_integrity_fst H canon m data tx_hash,
   fun _ _ _ _ _ => rfl⟩

/-- The invariant of the report loop: it leaves the manager unchanged, cannot
error when the empty payload canonicalizes, counts every id exactly once, and
emits one result entry per input id, in input order. -/
theorem reportLoop_ok (H : Bytes → Bytes) {α : Type}
    (canon : α → Except SerializationError Bytes) (emptyPayload : α) (eb : Bytes)
    (he : canon emptyPayload = .ok eb) :
    ∀ (ids : List String) (m : DataIntegrityManager),
    ∃ es v f nf, reportLoop H canon emptyPayload m ids = (m, .ok (es, v, f, nf)) ∧
      v + f + nf = ids.length ∧ es.map ReportEntry.snapshot_id = ids
  | [], _ => ⟨[], 0, 0, 0, rfl, rfl, rfl⟩
  | sid :: rest, m => by
    obtain ⟨es, v, f, nf, h1, h2, h3⟩ :=
      reportLoop_ok H canon emptyPayload eb he rest m
    cases hfind : m.snapshots.find? (fun p => p.1 == sid) with
    | none =>
      refine ⟨.notFound sid :: es, v, f, nf + 1, ?_, by simp; omega,
        by simp [h3, ReportEntry.snapshot_id]⟩
      simp only [reportLoop, hfind, h1]
    | some p =>
      obtain ⟨ver, hver⟩ :=
        verify_data_integrity_ok H canon m emptyPayload p.2.tx_hash eb he
      have heq : m.verify_data_integrity H canon emptyPayload p.2.tx_hash =
          (m, .ok ver) :=
        Prod.ext (verify_data_integrity_fst H canon m emptyPayload p.2.tx_hash) hver
      refine ⟨.checked sid (if ver.verified then "verified" else "failed")
          p.2.source_url p.2.timestamp p.2.tx_hash ver :: es,
        if ver.verified then v + 1 else v,
        if ver.verified then f else f + 1, nf, ?_,
        by split <;> simp <;> omega,
        by simp [h3, ReportEntry.snapshot_id]⟩
      simp only [reportLoop, hfind, heq, h1]

/-- Claim C10: for every list of snapshot ids, the generated report satisfies
`verified + failed + not_found = snapshots_checked = ids.length` and contains
exactly one `verification_results` entry per input id, in input order
(assuming the report's fixed empty payload canonicalizes, as `json.dumps({})`
always does). -/
theorem report_counts (H : Bytes → Bytes) {α : Type}
    (canon : α → Except SerializationError Bytes) (emptyPayload : α) (eb : Bytes)
    (he : canon emptyPayload = .ok eb) (m : DataIntegrityManager) (now : Nat)
    (ids : List String) :
    ∃ rep, (m.generate_integrity_report H canon emptyPayload now ids).2 = .ok rep ∧
      rep.verified + rep.failed + rep.not_found = ids.length ∧
      rep.snapshots_checked = ids.length ∧
      rep.verification_results.map ReportEntry.snapshot_id = ids := by
  obtain ⟨es, v, f, nf, h1, h2, h3⟩ :=
    reportLoop_ok H canon emptyPayload eb he ids m
  refine ⟨⟨now, ids.length, es, v, f, nf,
      if 0 < v + f then ((v : ℚ) / (((v + f : Nat)) : ℚ)) * 100 else 0⟩,
    ?_, h2, rfl, h3⟩
  simp only [DataIntegrityManager.generate_integrity_report, h1]

/-- Looking a transaction up by the id it was just inserted under returns it. -/
theorem find?_dictInsertTx (tx : BlockchainTransaction) :
    ∀ l : List BlockchainTransaction,
    (dictInsertTx tx l).find? (fun t => t.tx_id == tx.tx_id) = some tx
  | [] => by simp [dictInsertTx]
  | t :: ts => by
    by_cases hc : t.tx_id = tx.tx_id
    · simp [dictInsertTx, hc]
    · simp [dictInsertTx, hc, find?_dictInsertTx tx ts]

theorem combine_injective (H : Bytes → Bytes) (hinj : Function.Injective H)
    (pe : ProofElem) (a b : Bytes) (hab : combine H a pe = combine H b pe) :
    a = b := by
  obtain ⟨hsh, pos⟩ := pe
  cases pos with
  | left => exact List.append_cancel_left (hinj hab)
  | right => exact List.append_cancel_right (hinj hab)

/-- With an injective hash, folding the same proof from different start values
yields different results. -/
theorem foldl_combine_injective (H : Bytes → Bytes) (hinj : Function.Injective H) :
    ∀ (proof : List ProofElem) (a b : Bytes),
    proof.foldl (combine H) a = proof.foldl (combine H) b → a = b
  | [], _, _, hab => hab
  | pe :: pf, a, b, hab =>
    combine_injective H hinj pe a b
      (foldl_combine_injective H hinj pf (combine H a pe) (combine H b pe)
        (by simpa using hab))

/-- Full evaluation of a successful `register_data_snapshot` call. -/
theorem register_ok_eq (H : Bytes → Bytes) (mintTxId : Nat → String) {α : Type}
    (canon : α → Except SerializationError Bytes) (m : DataIntegrityManager)
    (now : Nat) (url : String) (meta : Metadata) (P : α) (b : Bytes)
    (hP : canon P = .ok b) :
    m.register_data_snapshot H mintTxId canon now url P meta =
      ({ blockchain := ⟨dictInsertTx
            ⟨mintTxId (m.blockchain.transaction_counter + 1), now, H b,
             (m.merkle_tree.add_leaf H b).2.root, (m.merkle_tree.add_leaf H b).2.proof,
             url, meta⟩ m.blockchain.transactions,
           m.blockchain.transaction_counter + 1⟩,
         merkle_tree := (m.merkle_tree.add_leaf H b).1,
         snapshots := dictInsertSnap (url ++ ":" ++ toString now,
           ⟨H b, mintTxId (m.blockchain.transaction_counter + 1), now, url,
            (m.merkle_tree.add_leaf H b).2⟩) m.snapshots },
       .ok ⟨url ++ ":" ++ toString now, H b,
         mintTxId (m.blockchain.transaction_counter + 1),
         (m.merkle_tree.add_leaf H b).2.root, now,
         "/verify/" ++ mintTxId (m.blockchain.transaction_counter + 1)⟩) := by
  simp [DataIntegrityManager.register_data_snapshot, hP,
    MockBlockchain.record_transaction]

/-- Claim C5: the very first registration on a fresh manager returns
`merkle_root = some data_hash` (a single-leaf tree's root is the hash of its
sole leaf), and the stored snapshot's Merkle proof for index 0 is empty. -/
theorem first_registration_single_leaf (H : Bytes → Bytes)
    (mintTxId : Nat → String) {α : Type}
    (canon : α → Except SerializationError Bytes) (now : Nat) (url : String)
    (data : α) (meta : Metadata) (b : Bytes) (h : canon data = .ok b) :
    ∃ r, (DataIntegrityManager.init.register_data_snapshot H mintTxId canon
        now url data meta).2 = .ok r ∧
      r.merkle_root = some r.data_hash ∧
      ∀ p ∈ (DataIntegrityManager.init.register_data_snapshot H mintTxId canon
          now url data meta).1.snapshots, p.2.merkle_result.proof = [] := by
  have hadd : MerkleTree.empty.add_leaf H b =
      (⟨[H b], [[H b]], some (H b)⟩, ⟨H b, 0, [], some (H b)⟩) := by
    simp [MerkleTree.add_leaf, MerkleTree.build_tree, MerkleTree.empty,
      MerkleTree.generate_proof, buildLevels, rootHash, genProofAux]
  rw [register_ok_eq H mintTxId canon DataIntegrityManager.init now url meta
    data b h]
  refine ⟨_, rfl, ?_, ?_⟩
  · show (MerkleTree.empty.add_leaf H b).2.root = some (H b)
    rw [hadd]
  · intro p hp
    simp only [DataIntegrityManager.init, dictInsertSnap,
      List.mem_singleton] at hp
    subst hp
    show (MerkleTree.empty.add_leaf H b).2.proof = []
    rw [hadd]

/-- Witness for C5 at a concrete input. -/
theorem first_registration_single_leaf_witness :
    (fun p : Bytes => (.ok p : Except SerializationError Bytes)) [5] = .ok [5] ∧
    ∃ r, (DataIntegrityManager.init.register_data_snapshot (fun b => 0 :: b)
        demoMint (fun p : Bytes => .ok p) 1 "u" [5] []).2 = .ok r ∧
      r.merkle_root = some r.data_hash ∧
      ∀ p ∈ (DataIntegrityManager.init.register_data_snapshot (fun b => 0 :: b)
          demoMint (fun p : Bytes => .ok p) 1 "u" [5] []).1.snapshots,
        p.2.merkle_result.proof = [] :=
  ⟨rfl, first_registration_single_leaf (fun b => 0 :: b) demoMint
    (fun p : Bytes => .ok p) 1 "u" [5] [] [5] rfl⟩

/-- Claim C2: tamper detection. If payload `P` is registered (canonicalizing to
`b`) and `P'` canonicalizes to a different byte string `b'`, then — under
collision-freeness of the hash, taken as injectivity — verifying `P'` against
the registration's transaction id yields `hashes_match = false`,
`merkle_verified = false`, and so `verified = false`. -/
theorem tamper_detection (H : Bytes → Bytes) (hinj : Function.Injective H)
    (mintTxId : Nat → String) {α : Type}
    (canon : α → Except SerializationError Bytes) (m : DataIntegrityManager)
    (now : Nat) (url : String) (meta : Metadata) (P P' : α) (b b' : Bytes)
    (hP : canon P = .ok b) (hP' : canon P' = .ok b') (hne : b' ≠ b)
    (r : RegistrationResult)
    (hr : (m.register_data_snapshot H mintTxId canon now url P meta).2 = .ok r) :
    ((m.register_data_snapshot H mintTxId canon now url P meta).1.verify_data_integrity
        H canon P' r.tx_hash).2 =
      .ok (.result false false (H b) (H b') url now r.tx_hash) ∧
    (VerificationResult.result false false (H b) (H b') url now
      r.tx_hash).verified = false := by
  have hms : (H b' == H b) = false :=
    beq_eq_false_iff_ne.mpr fun hEq => hne (hinj hEq)
  have hmv : ∀ t : MerkleTree, t.verify_proof H b'
      ((m.merkle_tree.add_leaf H b).2.proof)
      ((m.merkle_tree.add_leaf H b).2.root) = false := by
    intro t
    rw [MerkleTree.verify_proof, add_leaf_root H m.merkle_tree b]
    refine beq_eq_false_iff_ne.mpr fun hEq => ?_
    have h2 : ((m.merkle_tree.add_leaf H b).2.proof).foldl (combine H) (H b') =
        rootHash H (m.merkle_tree.leaves ++ [H b]) := by
      simpa using hEq
    rw [← add_leaf_foldl H m.merkle_tree b] at h2
    exact hne (hinj (foldl_combine_injective H hinj _ _ _ h2))
  rw [register_ok_eq H mintTxId canon m now url meta P b hP] at hr
  have hr2 : r = ⟨url ++ ":" ++ toString now, H b,
      mintTxId (m.blockchain.transaction_counter + 1),
      (m.merkle_tree.add_leaf H b).2.root, now,
      "/verify/" ++ mintTxId (m.blockchain.transaction_counter + 1)⟩ :=
    (Except.ok.inj hr).symm
  subst hr2
  rw [register_ok_eq H mintTxId canon m now url meta P b hP]
  refine ⟨?_, rfl⟩
  have hget : (⟨dictInsertTx
      ⟨mintTxId (m.blockchain.transaction_counter + 1), now, H b,
       (m.merkle_tree.add_leaf H b).2.root, (m.merkle_tree.add_leaf H b).2.proof,
       url, meta⟩ m.blockchain.transactions,
      m.blockchain.transaction_counter + 1⟩ : MockBlockchain).get_transaction
        (mintTxId (m.blockchain.transaction_counter + 1)) =
      some ⟨mintTxId (m.blockchain.transaction_counter + 1), now, H b,
        (m.merkle_tree.add_leaf H b).2.root, (m.merkle_tree.add_leaf H b).2.proof,
        url, meta⟩ := by
    simp only [MockBlockchain.get_transaction]
    exact find?_dictInsertTx
      ⟨mintTxId (m.blockchain.transaction_counter + 1), now, H b,
       (m.merkle_tree.add_leaf H b).2.root, (m.merkle_tree.add_leaf H b).2.proof,
       url, meta⟩ m.blockchain.transactions
  simp only [DataIntegrityManager.verify_data_integrity, hget, hP', hms, hmv]

/-- Concrete digest function for demo instances: a prefix-tagging injection
standing in for an ideal collision-free hash. -/
def demoHash (b : Bytes) : Bytes := 0 :: b

/-- Concrete canonicalizer for demo instances: payloads are already canonical
byte strings. -/
def demoCanon (p : Bytes) : Except SerializationError Bytes := .ok p

theorem demoHash_injective : Function.Injective demoHash := fun a b hab => by
  simpa [demoHash] using hab

/-- The registration summary returned by the first demo registration. -/
def demoReg : RegistrationResult :=
  ⟨"u" ++ ":" ++ toString 0, demoHash [1], demoMint (0 + 1),
   (MerkleTree.empty.add_leaf demoHash [1]).2.root, 0,
   "/verify/" ++ demoMint (0 + 1)⟩

/-- Witness for C2 at a concrete input: register `[1]`, then verify the
different payload `[2]` against the registration's transaction id. -/
theorem tamper_detection_witness :
    (Function.Injective demoHash ∧ demoCanon [1] = .ok [1] ∧
      demoCanon [2] = .ok [2] ∧ ([2] : Bytes) ≠ [1] ∧
      (DataIntegrityManager.init.register_data_snapshot demoHash demoMint
          demoCanon 0 "u" [1] []).2 = .ok demoReg) ∧
    ((DataIntegrityManager.init.register_data_snapshot demoHash demoMint
          demoCanon 0 "u" [1] []).1.verify_data_integrity demoHash demoCanon
          [2] demoReg.tx_hash).2 =
        .ok (.result false false (demoHash [1]) (demoHash [2]) "u" 0
          demoReg.tx_hash) ∧
      (VerificationResult.result false false (demoHash [1]) (demoHash [2]) "u" 0
        demoReg.tx_hash).verified = false := by
  have hr : (DataIntegrityManager.init.register_data_snapshot demoHash demoMint
      demoCanon 0 "u" [1] []).2 = .ok demoReg := by
    rw [register_ok_eq demoHash demoMint demoCanon DataIntegrityManager.init 0
      "u" [] [1] [1] rfl]
    rfl
  exact ⟨⟨demoHash_injective, rfl, rfl, by decide, hr⟩,
    tamper_detection demoHash demoHash_injective demoMint demoCanon
      DataIntegrityManager.init 0 "u" [] [1] [2] [1] [2] rfl rfl (by decide)
      demoReg hr⟩

/-- The manager state reached by registering payloads `[]`, `[]` and `[1]`
(sources `u1`, `u2`, `u3` at times 1, 2, 3) on a fresh manager. -/
def demoManager : DataIntegrityManager :=
  (((DataIntegrityManager.init.register_data_snapshot demoHash demoMint demoCanon
      1 "u1" [] []).1.register_data_snapshot demoHash demoMint demoCanon
      2 "u2" [] []).1.register_data_snapshot demoHash demoMint demoCanon
      3 "u3" [1] []).1

/-- Full evaluation of the three demo registrations. -/
theorem demoManager_val :
    demoManager =
      ⟨⟨[⟨demoMint 1, 1, [0], some [0], [], "u1", []⟩,
         ⟨demoMint 2, 2, [0], some [0, 0, 0], [⟨[0], .left⟩], "u2", []⟩,
         ⟨demoMint 3, 3, [0, 1], some [0, 0, 0, 0, 0, 0, 1, 0, 1],
          [⟨[0, 1], .right⟩, ⟨[0, 0, 0], .left⟩], "u3", []⟩], 3⟩,
       ⟨[[0], [0], [0, 1]],
        [[[0], [0], [0, 1]], [[0, 0, 0], [0, 0, 1, 0, 1]],
         [[0, 0, 0, 0, 0, 0, 1, 0, 1]]],
        some [0, 0, 0, 0, 0, 0, 1, 0, 1]⟩,
       [("u1" ++ ":" ++ toString 1,
         ⟨[0], demoMint 1, 1, "u1", ⟨[0], 0, [], some [0]⟩⟩),
        ("u2" ++ ":" ++ toString 2,
         ⟨[0], demoMint 2, 2, "u2", ⟨[0], 1, [⟨[0], .left⟩], some [0, 0, 0]⟩⟩),
        ("u3" ++ ":" ++ toString 3,
         ⟨[0, 1], demoMint 3, 3, "u3",
          ⟨[0, 1], 2, [⟨[0, 1], .right⟩, ⟨[0, 0, 0], .left⟩],
           some [0, 0, 0, 0, 0, 0, 1, 0, 1]⟩⟩)]⟩ := by
  simp +decide [demoManager, DataIntegrityManager.register_data_snapshot,
    DataIntegrityManager.init, demoCanon, demoHash, MerkleTree.add_leaf,
    MerkleTree.build_tree, MerkleTree.empty, MerkleTree.generate_proof,
    buildLevels, rootHash, nextLevel, genProofAux, genStep,
    MockBlockchain.record_transaction, MockBlockchain.empty, dictInsertTx,
    dictInsertSnap]

/-- Full evaluation of the report over the demo manager for two verifying ids,
one failing id, and one unknown id. -/
theorem demoReport_val :
    (demoManager.generate_integrity_report demoHash demoCanon ([] : Bytes) 9
        ["u1:1", "u2:2", "u3:3", "missing"]).2 =
      .ok ⟨9, 4,
        [.checked "u1:1" "verified" "u1" 1 (demoMint 1)
           (.result true true [0] [0] "u1" 1 (demoMint 1)),
         .checked "u2:2" "verified" "u2" 2 (demoMint 2)
           (.result true true [0] [0] "u2" 2 (demoMint 2)),
         .checked "u3:3" "failed" "u3" 3 (demoMint 3)
           (.result false false [0, 1] [0] "u3" 3 (demoMint 3)),
         .notFound "missing"],
        2, 1, 1, ((2 : ℕ) : ℚ) / ((3 : ℕ) : ℚ) * 100⟩ := by
  rw [demoManager_val]
  rfl

/-- Claim C3, counterexample: on a manager holding exactly the claim's scenario
— two snapshot ids whose registered payloads verify, one failing, one never
registered — `generate_integrity_report` does return `verified = 2`,
`failed = 1`, `not_found = 1`, but its integrity score is `2 / 3 * 100 =
66.666…`, which is not the claimed `66.67`. -/
theorem report_aggregation_counterexample :
    (demoManager.generate_integrity_report demoHash demoCanon ([] : Bytes) 9
        ["u1:1", "u2:2", "u3:3", "missing"]).2.map IntegrityReport.verified =
      .ok 2 ∧
    (demoManager.generate_integrity_report demoHash demoCanon ([] : Bytes) 9
        ["u1:1", "u2:2", "u3:3", "missing"]).2.map IntegrityReport.failed =
      .ok 1 ∧
    (demoManager.generate_integrity_report demoHash demoCanon ([] : Bytes) 9
        ["u1:1", "u2:2", "u3:3", "missing"]).2.map IntegrityReport.not_found =
      .ok 1 ∧
    (demoManager.generate_integrity_report demoHash demoCanon ([] : Bytes) 9
        ["u1:1", "u2:2", "u3:3", "missing"]).2.map IntegrityReport.integrity_score ≠
      .ok (6667 / 100 : ℚ) := by
  refine ⟨by rw [demoReport_val]; rfl, by rw [demoReport_val]; rfl,
    by rw [demoReport_val]; rfl, ?_⟩
  rw [demoReport_val]
  simp only [Except.map]
  intro hEq
  have h2 : ((2 : ℕ) : ℚ) / ((3 : ℕ) : ℚ) * 100 = 6667 / 100 :=
    Except.ok.inj hEq
  norm_num at h2

/-- Claim C3 as amended: on the claim's scenario (2 verifying ids, 1 failing
id, 1 unknown id), `generate_integrity_report` returns `verified = 2`,
`failed = 1`, `not_found = 1`, and `integrity_score = 2 / (2 + 1) * 100 =
200/3 = 66.666…` (66.67 only after rounding to two decimals); not-found
entries are excluded from the denominator, and the score is `0` when the
denominator is zero. -/
theorem report_aggregation_demo :
    (demoManager.generate_integrity_report demoHash demoCanon ([] : Bytes) 9
        ["u1:1", "u2:2", "u3:3", "missing"]).2.map IntegrityReport.verified =
      .ok 2 ∧
    (demoManager.generate_integrity_report demoHash demoCanon ([] : Bytes) 9
        ["u1:1", "u2:2", "u3:3", "missing"]).2.map IntegrityReport.failed =
      .ok 1 ∧
    (demoManager.generate_integrity_report demoHash demoCanon ([] : Bytes) 9
        ["u1:1", "u2:2", "u3:3", "missing"]).2.map IntegrityReport.not_found =
      .ok 1 ∧
    (demoManager.generate_integrity_report demoHash demoCanon ([] : Bytes) 9
        ["u1:1", "u2:2", "u3:3", "missing"]).2.map IntegrityReport.integrity_score =
      .ok (200 / 3 : ℚ) ∧
    (DataIntegrityManager.init.generate_integrity_report demoHash demoCanon
        ([] : Bytes) 0 ["missing"]).2.map IntegrityReport.integrity_score =
      .ok 0 := by
  refine ⟨by rw [demoReport_val]; rfl, by rw [demoReport_val]; rfl,
    by rw [demoReport_val]; rfl, ?_, by rfl⟩
  rw [demoReport_val]
  simp only [Except.map]
  congr 1
  norm_num

/-- Witness for C10 at a concrete input. -/
theorem report_counts_witness :
    (fun _ : Unit => (.ok [] : Except SerializationError Bytes)) () = .ok [] ∧
    ∃ rep, (DataIntegrityManager.init.generate_integrity_report (fun b => 0 :: b)
        (fun _ : Unit => .ok []) () 0 ["a", "b"]).2 = .ok rep ∧
      rep.verified + rep.failed + rep.not_found = ["a", "b"].length ∧
      rep.snapshots_checked = ["a", "b"].length ∧
      rep.verification_results.map ReportEntry.snapshot_id = ["a", "b"] :=
  ⟨rfl, report_counts (fun b => 0 :: b) (fun _ : Unit => .ok []) () [] rfl
    DataIntegrityManager.init 0 ["a", "b"]⟩

end Inspector
